import Mathlib

/-!
Verification of the pyzfs `libzfs_core` wrapper layer
(`src/libzfs_core/_libzfs_core.py`) against its natural-language
specification.

The wrapper code under `src/` is embedded directly.  The collaborators it
calls — the nvlist codec (`_nvlist.py`), the error-translation layer
(`_error_translation.py`) and the native storage engine — are not part of
`src/`; definitions for them are modelled from the specification and are
marked `Modelled from the spec:` in their doc comments.
-/

namespace PyZfs

/-! ## Errno constants (values of the C errno codes used by the wrappers) -/

def ENOENT : Nat := 2
def EEXIST : Nat := 17
def EBUSY : Nat := 16

/-! ## Faults

The exception kinds raised by the wrapper layer.  `assertionError` models a
failed Python `assert` (the internal-consistency fault of `lzc_hold` /
`lzc_release`). -/

inductive Fault : Type where
  | snapshotFailure (ret : Nat) (errs : List (String × Nat))
  | bookmarkFailure (ret : Nat) (errs : List (String × Nat))
  | destroyFailure (ret : Nat) (errs : List (String × Nat))
  | holdFailure (ret : Nat) (errs : List (String × Nat))
  | releaseFailure (ret : Nat) (errs : List (String × Nat))
  | sendFailure (ret : Nat)
  | assertionError
  | typeError (msg : String)
  | unknownStreamFeature (flag : String)
  | initFailure (ret : Nat)
deriving DecidableEq

/-! ## Engine state

The observable state of the native storage engine: which snapshots and
bookmarks exist and which user holds (snapshot name, tag) are in place. -/

structure EngineState : Type where
  snapshots : List String
  bookmarks : List String
  holds : List (String × String)
deriving DecidableEq

/-! ## Python dict-comprehension key semantics

`{ name: None for name in snaps }` keeps one entry per distinct key; the
order of the keys follows the first occurrence of each name. -/

def dictKeys : List String → List String
  | [] => []
  | n :: rest => n :: (dictKeys rest).filter (fun m => m ≠ n)

/-! ## Engine boundary calls

Modelled from the spec (§6 boundary-call contract, §4.3 atomicity rules and
the docstrings of the wrappers in `_libzfs_core.py`): each call takes one
encoded input, returns one coarse integer status, an error map and the
resulting engine state. -/

/-- Modelled from the spec: the native `lzc_snapshot` boundary call.
All-or-nothing: if any target already exists or is invalid (the `valid`
oracle covers non-existence of the parent filesystem, bad names, etc.)
nothing is created; the engine reports per-target entries only for the
"already exists" condition. -/
def engineSnapshot (valid : String → Bool) (st : EngineState) (names : List String) :
    Nat × List (String × Nat) × EngineState :=
  let existing := names.filter (fun n => st.snapshots.contains n)
  let invalid := names.filter (fun n => !valid n)
  if existing.isEmpty && invalid.isEmpty then
    (0, [], { st with snapshots := st.snapshots ++ names })
  else if invalid.isEmpty then
    (EEXIST, existing.map (fun n => (n, EEXIST)), st)
  else
    (ENOENT, [], st)

/-- Modelled from the spec: the native `lzc_bookmark` boundary call.
All-or-nothing: every bookmark must name an existing snapshot and a fresh
bookmark name, otherwise nothing is created. -/
def engineBookmark (st : EngineState) (bmarks : List (String × String)) :
    Nat × List (String × Nat) × EngineState :=
  let bad := bmarks.filter
    (fun p => !st.snapshots.contains p.2 || st.bookmarks.contains p.1)
  if bad.isEmpty then
    (0, [], { st with bookmarks := st.bookmarks ++ bmarks.map Prod.fst })
  else
    (ENOENT, bad.map (fun p => (p.1, ENOENT)), st)

/-- Does some hold exist on the snapshot `n`? -/
def snapHasHold (st : EngineState) (n : String) : Bool :=
  st.holds.any (fun h => h.1 == n)

/-- Modelled from the spec: the native `lzc_destroy_snaps` boundary call.
Snapshots that do not exist are silently ignored; without `defer` a held
snapshot blocks the whole batch, with `defer` it is kept and marked for
deferred destruction. -/
def engineDestroySnaps (st : EngineState) (names : List String) (defer : Bool) :
    Nat × List (String × Nat) × EngineState :=
  let existing := names.filter (fun n => st.snapshots.contains n)
  let blocked := existing.filter (fun n => snapHasHold st n)
  if !defer && !blocked.isEmpty then
    (EBUSY, blocked.map (fun n => (n, EBUSY)), st)
  else
    (0, [],
      { st with snapshots :=
          st.snapshots.filter (fun s => !existing.contains s || blocked.contains s) })

/-- Modelled from the spec: the native `lzc_hold` boundary call.  Holds on
snapshots that do not exist are skipped and reported with `ENOENT` in the
error map; a hold that already exists is a hard failure voiding the batch. -/
def engineHold (st : EngineState) (holds : List (String × String)) (fd : Int) :
    Nat × List (String × Nat) × EngineState :=
  let _ := fd
  let missing := holds.filter (fun p => !st.snapshots.contains p.1)
  let present := holds.filter (fun p => st.snapshots.contains p.1)
  let dup := present.filter (fun p => st.holds.contains p)
  if !dup.isEmpty then
    (EEXIST, dup.map (fun p => (p.1, EEXIST)), st)
  else
    (0, missing.map (fun p => (p.1, ENOENT)), { st with holds := st.holds ++ present })

/-- Qualified name of a hold tag: snapshot identifier, `#`, tag. -/
def qualifyTag (snap tag : String) : String := snap ++ "#" ++ tag

/-- Modelled from the spec: the error-map entries the engine produces for one
`lzc_release` request entry — the snapshot itself when it is missing, or the
`snap#tag`-qualified names of the tags that do not exist on it. -/
def releaseMissesFor (st : EngineState) (p : String × List String) : List (String × Nat) :=
  if !st.snapshots.contains p.1 then [(p.1, ENOENT)]
  else (p.2.filter (fun t => !st.holds.contains (p.1, t))).map
    (fun t => (qualifyTag p.1 t, ENOENT))

/-- Modelled from the spec: the native `lzc_release` boundary call.  Missing
snapshots and missing tags are soft misses reported with `ENOENT`; every hold
that did exist is removed and the call succeeds. -/
def engineRelease (st : EngineState) (rel : List (String × List String)) :
    Nat × List (String × Nat) × EngineState :=
  let errl := (rel.map (releaseMissesFor st)).flatten
  let kept := st.holds.filter
    (fun h => !(rel.any (fun p => p.1 == h.1 && p.2.contains h.2)))
  (0, errl, { st with holds := kept })

/-! ## The scoped output buffer (`nvlist_out`) -/

/-- Outcome of running a boundary call under the scoped output buffer:
the call's result, the decoded contents of the output list, and whether the
native handle was released. -/
instance {ε α : Type} [DecidableEq ε] [DecidableEq α] : DecidableEq (Except ε α) :=
  fun a b =>
  match a, b with
  | .error x, .error y =>
    if h : x = y then isTrue (by rw [h]) else isFalse (fun hh => h (by cases hh; rfl))
  | .error _, .ok _ => isFalse (fun hh => by cases hh)
  | .ok _, .error _ => isFalse (fun hh => by cases hh)
  | .ok x, .ok y =>
    if h : x = y then isTrue (by rw [h]) else isFalse (fun hh => h (by cases hh; rfl))

structure OutScope (α : Type) : Type where
  result : Except Fault α
  sink : List (String × Nat)
  released : Bool
deriving DecidableEq

/-- Modelled from the spec: `nvlist_out` (from `_nvlist.py`, not under
`src/`).  An empty output List handle is allocated and passed to the body; on
scope exit — whether the body returns or raises — its contents are decoded
into the caller's sink and the native handle is released.  The body receives
the initial (empty) contents and yields its outcome together with the final
contents of the native list. -/
def withNvlistOut {α : Type}
    (body : List (String × Nat) → Except Fault α × List (String × Nat)) :
    OutScope α :=
  let r := body []
  { result := r.1, sink := r.2, released := true }

/-! ## Error translation

Modelled from the spec (§4.2): a zero status is overall success and raises
nothing; a non-zero status raises the operation's compound fault built from
the status and the decoded error map. -/

/-- Modelled from the spec: `lzc_snapshot_xlate_errors`. -/
def xlateSnapshot (ret : Nat) (errl : List (String × Nat)) : Except Fault Unit :=
  if ret = 0 then .ok () else .error (.snapshotFailure ret errl)

/-- Modelled from the spec: `lzc_bookmark_xlate_errors`. -/
def xlateBookmark (ret : Nat) (errl : List (String × Nat)) : Except Fault Unit :=
  if ret = 0 then .ok () else .error (.bookmarkFailure ret errl)

/-- Modelled from the spec: `lzc_destroy_snaps_xlate_errors`. -/
def xlateDestroy (ret : Nat) (errl : List (String × Nat)) : Except Fault Unit :=
  if ret = 0 then .ok () else .error (.destroyFailure ret errl)

/-- Modelled from the spec: `lzc_hold_xlate_errors`. -/
def xlateHold (ret : Nat) (errl : List (String × Nat)) : Except Fault Unit :=
  if ret = 0 then .ok () else .error (.holdFailure ret errl)

/-- Modelled from the spec: `lzc_release_xlate_errors`. -/
def xlateRelease (ret : Nat) (errl : List (String × Nat)) : Except Fault Unit :=
  if ret = 0 then .ok () else .error (.releaseFailure ret errl)

/-- Modelled from the spec: `lzc_send_xlate_error`. -/
def xlateSend (ret : Nat) : Except Fault Unit :=
  if ret = 0 then .ok () else .error (.sendFailure ret)

/-! ## The wrappers (embedded from `_libzfs_core.py`) -/

/-- Result of one wrapper call: the Python return value or raised fault, the
decoded per-target error map (the wrapper's local `errlist` dict after the
scoped output buffer exits), the engine state after the call, and whether the
output handle was released. -/
structure CallResult (α : Type) : Type where
  result : Except Fault α
  errlist : List (String × Nat)
  state : EngineState
  released : Bool
deriving DecidableEq

/-- Wrapper `lzc_snapshot(snaps, props)`: builds `snaps_dict = {name: None for name in
snaps}`, performs the boundary call under `nvlist_out(errlist)` and then
translates the status. -/
def lzc_snapshot (valid : String → Bool) (st : EngineState)
    (snaps : List String) (props : List (String × String)) : CallResult Unit :=
  let snapsKeys := dictKeys snaps
  let _ := props
  let call := engineSnapshot valid st snapsKeys
  let scope := withNvlistOut (fun _ => (.ok (), call.2.1))
  { result := xlateSnapshot call.1 scope.sink
    errlist := scope.sink
    state := call.2.2
    released := scope.released }

/-- Wrapper `lzc_bookmark(bookmarks)`. -/
def lzc_bookmark (st : EngineState) (bookmarks : List (String × String)) :
    CallResult Unit :=
  let call := engineBookmark st bookmarks
  let scope := withNvlistOut (fun _ => (.ok (), call.2.1))
  { result := xlateBookmark call.1 scope.sink
    errlist := scope.sink
    state := call.2.2
    released := scope.released }

/-- Wrapper `lzc_destroy_snaps(snaps, defer)`: note that the Python function returns
`None` — the decoded `errlist` is a local variable that is dropped. -/
def lzc_destroy_snaps (st : EngineState) (snaps : List String) (defer : Bool) :
    CallResult Unit :=
  let snapsKeys := dictKeys snaps
  let call := engineDestroySnaps st snapsKeys defer
  let scope := withNvlistOut (fun _ => (.ok (), call.2.1))
  { result := xlateDestroy call.1 scope.sink
    errlist := scope.sink
    state := call.2.2
    released := scope.released }

/-- The tail of `lzc_hold` after the boundary call: error translation, then
`assert all(x == errno.ENOENT for x in errlist.itervalues())`, then
`return errlist.keys()`. -/
def lzc_holdPost (ret : Nat) (errl : List (String × Nat)) :
    Except Fault (List String) :=
  match xlateHold ret errl with
  | .error e => .error e
  | .ok () =>
    if errl.all (fun p => p.2 == ENOENT) then .ok (errl.map Prod.fst)
    else .error .assertionError

/-- Wrapper `lzc_hold(holds, fd)`: the `fd` defaults to `-1` when `None`. -/
def lzc_hold (st : EngineState) (holds : List (String × String))
    (fd : Option Int) : CallResult (List String) :=
  let fdv := fd.getD (-1)
  let call := engineHold st holds fdv
  let scope := withNvlistOut (fun _ => (.ok (), call.2.1))
  { result := lzc_holdPost call.1 scope.sink
    errlist := scope.sink
    state := call.2.2
    released := scope.released }

/-- A Python value found in the `holds` dictionary of `lzc_release`: either
an actual list of tags or a value of some other type. -/
inductive PyVal : Type where
  | pylist (tags : List String)
  | pyother
deriving DecidableEq

/-- The `holds_dict` construction loop of `lzc_release`: each value must be a
`list`, otherwise `TypeError('holds must be in a list')` is raised before any
boundary call; each tag list becomes an inner dict `{hold: None for hold in
hold_list}`. -/
def buildHoldsDict : List (String × PyVal) → Except Fault (List (String × List String))
  | [] => .ok []
  | (snap, PyVal.pylist tags) :: rest =>
      (buildHoldsDict rest).map (fun d => (snap, dictKeys tags) :: d)
  | (_, PyVal.pyother) :: _ => .error (.typeError "holds must be in a list")

/-- The tail of `lzc_release` after the boundary call: error translation, the
`ENOENT` assert, then `return errlist.keys()`. -/
def lzc_releasePost (ret : Nat) (errl : List (String × Nat)) :
    Except Fault (List String) :=
  match xlateRelease ret errl with
  | .error e => .error e
  | .ok () =>
    if errl.all (fun p => p.2 == ENOENT) then .ok (errl.map Prod.fst)
    else .error .assertionError

/-- Wrapper `lzc_release(holds)`. -/
def lzc_release (st : EngineState) (holds : List (String × PyVal)) :
    CallResult (List String) :=
  match buildHoldsDict holds with
  | .error e => { result := .error e, errlist := [], state := st, released := true }
  | .ok d =>
    let call := engineRelease st d
    let scope := withNvlistOut (fun _ => (.ok (), call.2.1))
    { result := lzc_releasePost call.1 scope.sink
      errlist := scope.sink
      state := call.2.2
      released := scope.released }

/-- The per-entry soft-miss report the specification promises for
`lzc_release`: a missing snapshot is reported by its own name, a missing tag
on an existing snapshot by the `snap#tag` qualified name. -/
def specSoftMisses (st : EngineState) (rel : List (String × List String)) :
    List String :=
  (rel.map (fun p =>
    if st.snapshots.contains p.1 then
      (p.2.filter (fun t => !st.holds.contains (p.1, t))).map (qualifyTag p.1)
    else [p.1])).flatten

/-! ## `lzc_send` -/

def LZC_SEND_FLAG_EMBED_DATA : Nat := 1
def LZC_SEND_FLAG_LARGE_BLOCK : Nat := 2

/-- The flag-name table of `lzc_send`:
`{'embedded_data': ..., 'large_blocks': ...}.get(flag)`. -/
def sendFlagBit (flag : String) : Option Nat :=
  if flag = "embedded_data" then some LZC_SEND_FLAG_EMBED_DATA
  else if flag = "large_blocks" then some LZC_SEND_FLAG_LARGE_BLOCK
  else none

/-- The flag-processing loop of `lzc_send`: accumulate the bits of the known
flags, raising `UnknownStreamFeature(flag)` at the first unknown one. -/
def collectSendFlags : List String → Except Fault Nat
  | [] => .ok 0
  | f :: rest =>
    match sendFlagBit f with
    | none => .error (.unknownStreamFeature f)
    | some b => (collectSendFlags rest).map (fun c => b ||| c)

/-- Modelled from the spec: the native `lzc_send` boundary call writes the
stream to the file descriptor and returns a coarse status. -/
def engineSend (st : EngineState) (snapname : String) (fromsnap : Option String)
    (fd : Nat) (cflags : Nat) : Nat × List (Nat × String) :=
  let _ := fromsnap
  let _ := cflags
  if st.snapshots.contains snapname then (0, [(fd, "stream")]) else (ENOENT, [])

/-- Wrapper `lzc_send(snapname, fromsnap, fd, flags)`: returns the wrapper outcome and
the list of writes made to file descriptors. -/
def lzc_send (st : EngineState) (snapname : String) (fromsnap : Option String)
    (fd : Nat) (flags : List String) : Except Fault Unit × List (Nat × String) :=
  match collectSendFlags flags with
  | .error e => (.error e, [])
  | .ok cflags =>
    let call := engineSend st snapname fromsnap fd cflags
    (xlateSend call.1, call.2)

/-! ## Lazy handle init-once logic (`LazyInit`) -/

/-- State of the `LazyInit` proxy: whether `_inited` is set, and how many
times `libzfs_core_init` has been invoked so far. -/
structure LazyState : Type where
  inited : Bool
  calls : Nat
deriving DecidableEq

/-- One attribute access through `LazyInit.__getattr__` (the accesses are
serialized by `self._lock`): if `_inited` is not set, `libzfs_core_init` is
invoked; a non-zero result raises `ZFSInitializationFailed` and leaves
`_inited` unset, a zero result sets `_inited`.  `oracle n` is the status
returned by the `n`-th invocation of `libzfs_core_init`. -/
def lazyAccess (oracle : Nat → Nat) (st : LazyState) :
    Except Fault Unit × LazyState :=
  if st.inited then (.ok (), st)
  else
    let r := oracle st.calls
    if r = 0 then (.ok (), ⟨true, st.calls + 1⟩)
    else (.error (.initFailure r), ⟨false, st.calls + 1⟩)

/-- The amended contract of the lazy handle: a successful first use latches;
while unset, every access retries the underlying init, failing with an init
fault exactly when the underlying init fails. -/
def retryLazySpec (oracle : Nat → Nat) (st : LazyState) :
    Except Fault Unit × LazyState :=
  match st.inited with
  | true => (.ok (), st)
  | false =>
    match oracle st.calls with
    | 0 => (.ok (), ⟨true, st.calls + 1⟩)
    | Nat.succ k => (.error (.initFailure (Nat.succ k)), ⟨false, st.calls + 1⟩)

/-- A `libzfs_core_init` oracle whose first invocation fails with status 5 and
whose later invocations succeed. -/
def failThenOk : Nat → Nat := fun n => if n = 0 then 5 else 0

/-! ## The List codec (nvlist)

Modelled from the spec (§3 value grammar, §4.1 List Codec, §6 wire layout):
`_nvlist.py` is not under `src/`.  A List is an ordered mapping from
byte-string keys to typed values; values are flags, booleans, fixed-width
signed/unsigned integers, byte strings, nested Lists and homogeneous
sequences of the non-sequence kinds.  Each encoded field is a type tag
followed by a length-prefixed payload. -/

/-- The kind tag of a sequence element (sequences hold the non-sequence
kinds, including List). -/
inductive ElemKind : Type where
  | kflag
  | kbool
  | kint (sg : Bool) (w : Nat)
  | kstr
  | klist
deriving DecidableEq

mutual
/-- A typed value of the List grammar (§3).  `intv sg w v` is an integer of
width `w` bytes, signed when `sg`; `strv` is a byte string. -/
inductive NvValue : Type where
  | flagv : NvValue
  | boolv : Bool → NvValue
  | intv : Bool → Nat → Int → NvValue
  | strv : List Nat → NvValue
  | listv : NvPairs → NvValue
  | arrv : ElemKind → NvValues → NvValue

/-- The ordered key/value pairs of one List. -/
inductive NvPairs : Type where
  | pnil : NvPairs
  | pcons : List Nat → NvValue → NvPairs → NvPairs

/-- The elements of one sequence. -/
inductive NvValues : Type where
  | vnil : NvValues
  | vcons : NvValue → NvValues → NvValues
end

/-- The element kind of a non-sequence value. -/
def kindOf : NvValue → Option ElemKind
  | .flagv => some .kflag
  | .boolv _ => some .kbool
  | .intv sg w _ => some (.kint sg w)
  | .strv _ => some .kstr
  | .listv _ => some .klist
  | .arrv _ _ => none

/-- The supported fixed widths: 8/16/32/64-bit integers. -/
def validWidth (w : Nat) : Bool :=
  w == 1 || w == 2 || w == 4 || w == 8

/-- Range of a fixed-width integer value: two's-complement range when signed,
`[0, 256^w)` when unsigned. -/
def intInRange (sg : Bool) (w : Nat) (v : Int) : Bool :=
  if sg then
    decide (-((256 : Int) ^ w / 2) ≤ v) && decide (v < (256 : Int) ^ w / 2)
  else
    decide (0 ≤ v) && decide (v < (256 : Int) ^ w)

/-- A well-formed element kind (integer kinds carry a supported width). -/
def kindWf : ElemKind → Bool
  | .kint _ w => validWidth w
  | _ => true

/-- All entries are bytes. -/
def bytesOk (s : List Nat) : Bool := s.all (fun b => b < 256)

/-- Key membership in a List. -/
def keyMem (key : List Nat) : NvPairs → Bool
  | .pnil => false
  | .pcons k _ rest => k == key || keyMem key rest

/-- All sequence elements have kind `k`. -/
def homog (k : ElemKind) : NvValues → Bool
  | .vnil => true
  | .vcons v rest => (kindOf v == some k) && homog k rest

/-- Number of sequence elements. -/
def lenVs : NvValues → Nat
  | .vnil => 0
  | .vcons _ rest => lenVs rest + 1

mutual
/-- Well-formed value tree under the grammar of §3: supported integer widths
and ranges, byte-valued strings and keys, unique keys within one List,
homogeneous sequences, and bounded lengths (the wire length prefix is 32-bit). -/
def wfV : NvValue → Bool
  | .flagv => true
  | .boolv _ => true
  | .intv sg w v => validWidth w && intInRange sg w v
  | .strv s => decide (s.length < 2 ^ 32) && bytesOk s
  | .listv l => wfP l
  | .arrv k vs => kindWf k && decide (lenVs vs < 2 ^ 32) && homog k vs && wfVs vs

/-- Well-formed pair sequence: byte keys within length bounds, no duplicate
keys, well-formed values. -/
def wfP : NvPairs → Bool
  | .pnil => true
  | .pcons key v rest =>
      decide (key.length < 2 ^ 32) && bytesOk key && !(keyMem key rest) &&
        wfV v && wfP rest

/-- Well-formed sequence elements. -/
def wfVs : NvValues → Bool
  | .vnil => true
  | .vcons v rest => wfV v && wfVs rest
end

/-- Little-endian byte encoding of a natural number in `w` bytes. -/
def natToBytesLE : Nat → Nat → List Nat
  | 0, _ => []
  | w + 1, n => n % 256 :: natToBytesLE w (n / 256)

/-- Little-endian byte decoding. -/
def bytesToNatLE : List Nat → Nat
  | [] => 0
  | b :: rest => b % 256 + 256 * bytesToNatLE rest

/-- Split off exactly `w` entries from the front of the buffer. -/
def takeBytes : Nat → List Nat → Option (List Nat × List Nat)
  | 0, buf => some ([], buf)
  | _ + 1, [] => none
  | w + 1, b :: rest => (takeBytes w rest).map (fun p => (b :: p.1, p.2))

/-- Payload of a fixed-width integer: the value reduced mod `256^w`, in `w`
little-endian bytes (two's complement for negative values). -/
def encIntPayload (w : Nat) (v : Int) : List Nat :=
  natToBytesLE w (v % ((256 : Int) ^ w)).toNat

/-- Reading back a fixed-width integer from its unsigned payload value. -/
def decInt (sg : Bool) (w : Nat) (n : Nat) : Int :=
  if sg && decide (256 ^ w ≤ 2 * n) then (n : Int) - (256 : Int) ^ w
  else (n : Int)

/-- Wire form of an element kind. -/
def encKind : ElemKind → List Nat
  | .kflag => [0]
  | .kbool => [1]
  | .kint sg w => [2, if sg then 1 else 0, w % 256]
  | .kstr => [3]
  | .klist => [4]

/-- Parse an element kind. -/
def decKind : List Nat → Option (ElemKind × List Nat)
  | 0 :: rest => some (.kflag, rest)
  | 1 :: rest => some (.kbool, rest)
  | 2 :: sg :: w :: rest =>
      if sg == 0 then some (.kint false w, rest)
      else if sg == 1 then some (.kint true w, rest)
      else none
  | 3 :: rest => some (.kstr, rest)
  | 4 :: rest => some (.klist, rest)
  | _ => none

/-- Length-prefixed byte string: 32-bit little-endian length, then the raw
bytes (not null-terminated, embedded zero bytes are legal). -/
def encBytes (s : List Nat) : List Nat :=
  natToBytesLE 4 s.length ++ s

/-- Parse a length-prefixed byte string. -/
def decBytes (buf : List Nat) : Option (List Nat × List Nat) :=
  match takeBytes 4 buf with
  | none => none
  | some (lb, rest) => takeBytes (bytesToNatLE lb) rest

mutual
/-- Encode one typed value: a type tag, then the payload.  Fails (like
`EncodingError`) when a sequence is not homogeneously typed. -/
def encV : NvValue → Option (List Nat)
  | .flagv => some [1]
  | .boolv b => some [2, if b then 1 else 0]
  | .intv sg w v =>
      some ([3, if sg then 1 else 0, w % 256] ++ encIntPayload w v)
  | .strv s => some (4 :: encBytes s)
  | .listv l => (encP l).map (fun bl => 5 :: bl)
  | .arrv k vs =>
      if homog k vs then
        (encVs vs).map
          (fun bs => 6 :: (encKind k ++ natToBytesLE 4 (lenVs vs) ++ bs))
      else none

/-- Encode the pairs of a List: a `1` marker, the length-prefixed key and the
value for each pair, then a `0` end marker. -/
def encP : NvPairs → Option (List Nat)
  | .pnil => some [0]
  | .pcons key v rest =>
      match encV v, encP rest with
      | some bv, some br => some (1 :: (encBytes key ++ bv ++ br))
      | _, _ => none

/-- Encode the elements of a sequence, concatenated. -/
def encVs : NvValues → Option (List Nat)
  | .vnil => some []
  | .vcons v rest =>
      match encV v, encVs rest with
      | some bv, some br => some (bv ++ br)
      | _, _ => none
end

mutual
/-- Decode one typed value from the front of the buffer, returning the rest.
`fuel` bounds the nesting depth; malformed or truncated buffers yield `none`
(like `DecodingError`), never an out-of-bounds read. -/
def decV : Nat → List Nat → Option (NvValue × List Nat)
  | 0, _ => none
  | fuel + 1, buf =>
    match buf with
    | 1 :: rest => some (.flagv, rest)
    | 2 :: b :: rest =>
        if b == 0 then some (.boolv false, rest)
        else if b == 1 then some (.boolv true, rest)
        else none
    | 3 :: sg :: w :: rest =>
        if sg == 0 || sg == 1 then
          (takeBytes w rest).map (fun p =>
            (.intv (sg == 1) w (decInt (sg == 1) w (bytesToNatLE p.1)), p.2))
        else none
    | 4 :: rest => (decBytes rest).map (fun p => (.strv p.1, p.2))
    | 5 :: rest => (decP fuel rest).map (fun p => (.listv p.1, p.2))
    | 6 :: rest =>
        (decKind rest).bind (fun pk =>
          (takeBytes 4 pk.2).bind (fun pc =>
            (decVs fuel (bytesToNatLE pc.1) pc.2).map
              (fun pv => (.arrv pk.1 pv.1, pv.2))))
    | _ => none

/-- Decode the pairs of a List up to the `0` end marker. -/
def decP : Nat → List Nat → Option (NvPairs × List Nat)
  | 0, _ => none
  | fuel + 1, buf =>
    match buf with
    | 0 :: rest => some (.pnil, rest)
    | 1 :: rest =>
        (decBytes rest).bind (fun pk =>
          (decV fuel pk.2).bind (fun pv =>
            (decP fuel pv.2).map
              (fun pr => (.pcons pk.1 pv.1 pr.1, pr.2))))
    | _ => none

/-- Decode `count` sequence elements. -/
def decVs : Nat → Nat → List Nat → Option (NvValues × List Nat)
  | _, 0, buf => some (.vnil, buf)
  | 0, _ + 1, _ => none
  | fuel + 1, count + 1, buf =>
      (decV fuel buf).bind (fun pv =>
        (decVs fuel count pv.2).map
          (fun pr => (.vcons pv.1 pr.1, pr.2)))
end

mutual
/-- Structural size of a value, used to bound the decoder fuel. -/
def sizeV : NvValue → Nat
  | .flagv => 1
  | .boolv _ => 1
  | .intv _ _ _ => 1
  | .strv _ => 1
  | .listv l => sizeP l + 1
  | .arrv _ vs => sizeVs vs + 1

/-- Structural size of a pair sequence. -/
def sizeP : NvPairs → Nat
  | .pnil => 1
  | .pcons _ v rest => sizeV v + sizeP rest + 1

/-- Structural size of sequence elements. -/
def sizeVs : NvValues → Nat
  | .vnil => 1
  | .vcons v rest => sizeV v + sizeVs rest
end

/-- Full decode: parse a whole buffer back into a value tree.  The buffer length
plus one bounds the nesting depth of anything the buffer encodes. -/
def lzcDecode (buf : List Nat) : Option NvValue :=
  (decV (buf.length + 1) buf).map Prod.fst

deriving instance DecidableEq for NvValue

/-- The engine state with no snapshots, bookmarks or holds. -/
def emptyState : EngineState := ⟨[], [], []⟩

/-- A state with one snapshot `p@s1` carrying one hold `tag1`. -/
def heldState : EngineState := ⟨["p@s1"], [], [("p@s1", "tag1")]⟩

/-- Scenario 1 of §8: the tree `{"a": 1u32, "b": ["x", "y", "z"]}`
(keys and strings as their byte values). -/
def exTree : NvValue :=
  .listv (.pcons [97] (.intv false 4 1)
    (.pcons [98]
      (.arrv .kstr
        (.vcons (.strv [120]) (.vcons (.strv [121]) (.vcons (.strv [122]) .vnil))))
      .pnil))

/-! # Theorems -/

/-! ## Properties of `dictKeys` -/

theorem mem_dictKeys (a : String) : ∀ l : List String, a ∈ dictKeys l ↔ a ∈ l
  | [] => by simp [dictKeys]
  | n :: rest => by
    simp only [dictKeys, List.mem_cons, List.mem_filter, mem_dictKeys a rest,
      ne_eq, decide_not, Bool.not_eq_eq_eq_not, Bool.not_true, decide_eq_false_iff_not]
    by_cases h : a = n
    · simp [h]
    · simp [h]

theorem dictKeys_nodup : ∀ l : List String, (dictKeys l).Nodup
  | [] => by simp [dictKeys]
  | n :: rest => by
    rw [dictKeys, List.nodup_cons]
    exact ⟨by simp [List.mem_filter], List.Nodup.filter _ (dictKeys_nodup rest)⟩

theorem dictKeys_eq_self : ∀ l : List String, l.Nodup → dictKeys l = l
  | [], _ => rfl
  | n :: rest, h => by
    rw [List.nodup_cons] at h
    rw [dictKeys, dictKeys_eq_self rest h.2]
    congr 1
    apply List.filter_eq_self.mpr
    intro a ha
    simp only [ne_eq, decide_eq_true_eq]
    exact fun e => h.1 (e ▸ ha)

theorem dictKeys_idem (l : List String) : dictKeys (dictKeys l) = dictKeys l :=
  dictKeys_eq_self _ (dictKeys_nodup l)

/-! ## C6 -/

/-- C6: a list of snapshot names with duplicates is collapsed by the
`{name: None for name in snaps}` dict construction before the boundary call:
`lzc_snapshot` (and `lzc_destroy_snaps`) behave identically to the same call
on the deduplicated target set, so no fault can arise purely from
duplication. -/
theorem C6_duplicates_collapse (valid : String → Bool) (st : EngineState)
    (snaps : List String) (props : List (String × String)) (defer : Bool) :
    lzc_snapshot valid st snaps props = lzc_snapshot valid st (dictKeys snaps) props ∧
    lzc_destroy_snaps st snaps defer = lzc_destroy_snaps st (dictKeys snaps) defer := by
  constructor
  · simp [lzc_snapshot, dictKeys_idem]
  · simp [lzc_destroy_snaps, dictKeys_idem]

/-! ## C8 -/

/-- C8 counterexample: with an underlying `libzfs_core_init` that fails once
(status 5) and then succeeds, the first access through `LazyInit` raises the
init fault but the very next access succeeds — initialization failure is not
fatal for subsequent calls. -/
theorem C8_counterexample :
    (lazyAccess failThenOk ⟨false, 0⟩).1 = .error (.initFailure 5) ∧
    (lazyAccess failThenOk (lazyAccess failThenOk ⟨false, 0⟩).2).1 = .ok () := by
  decide

/-- C8 (amended): a failed initialization leaves the handle uninitialized and
raises an init fault for that access only; each later access retries the
underlying init, failing while it fails and succeeding (and latching) once it
succeeds. -/
theorem C8_lazy_retry (oracle : Nat → Nat) (st : LazyState) :
    lazyAccess oracle st = retryLazySpec oracle st := by
  unfold lazyAccess retryLazySpec
  cases st.inited with
  | true => simp
  | false =>
    cases h : oracle st.calls with
    | zero => simp [h]
    | succ k => simp [h]

/-! ## C4 -/

/-- C4 counterexample: destroying the absent snapshot `p@s1` returns full
success, but the call does not report the target back as a soft miss — the
decoded error map is empty and the Python function returns `None`, so the
claimed "all targets reported back as soft misses" fails. -/
theorem C4_counterexample :
    ¬ ((∀ s ∈ ["p@s1"], s ∉ emptyState.snapshots) →
        (lzc_destroy_snaps emptyState ["p@s1"] false).result = .ok () ∧
        (lzc_destroy_snaps emptyState ["p@s1"] false).errlist.map Prod.fst = ["p@s1"]) := by
  decide

/-- C4 (amended): destroying a target set in which every target is already
absent returns full success and never raises a fault; the absent targets are
silently ignored — the error map stays empty and nothing is reported back —
and the engine state is unchanged. -/
theorem engineDestroySnaps_absent (st : EngineState) (names : List String)
    (defer : Bool) (h : ∀ s ∈ names, s ∉ st.snapshots) :
    engineDestroySnaps st names defer = (0, [], st) := by
  have hex : names.filter (fun n => st.snapshots.contains n) = [] := by
    apply List.filter_eq_nil_iff.mpr
    intro a ha
    simpa using h a ha
  simp only [engineDestroySnaps]
  rw [hex]
  simp

theorem C4_all_absent_destroy (st : EngineState) (snaps : List String)
    (defer : Bool) (h : ∀ s ∈ snaps, s ∉ st.snapshots) :
    (lzc_destroy_snaps st snaps defer).result = .ok () ∧
    (lzc_destroy_snaps st snaps defer).errlist = [] ∧
    (lzc_destroy_snaps st snaps defer).state = st := by
  have hcall : engineDestroySnaps st (dictKeys snaps) defer = (0, [], st) :=
    engineDestroySnaps_absent st (dictKeys snaps) defer
      (fun s hs => h s ((mem_dictKeys s snaps).mp hs))
  simp [lzc_destroy_snaps, hcall, withNvlistOut, xlateDestroy]

/-- C4 witness: the amended statement at the concrete all-absent input. -/
theorem C4_witness :
    (lzc_destroy_snaps emptyState ["p@s1"] false).result = .ok () ∧
    (lzc_destroy_snaps emptyState ["p@s1"] false).errlist = [] ∧
    (lzc_destroy_snaps emptyState ["p@s1"] false).state = emptyState :=
  C4_all_absent_destroy emptyState ["p@s1"] false (by decide)

/-! ## C9 -/

/-- C9: if some value in the `holds` dictionary of `lzc_release` is not a
list, the wrapper raises `TypeError('holds must be in a list')` while
building `holds_dict`, before any boundary call — the engine state is
unchanged and no hold is released. -/
theorem C9_release_nonlist_typeerror (st : EngineState)
    (holds : List (String × PyVal)) (h : ∃ p ∈ holds, p.2 = PyVal.pyother) :
    (lzc_release st holds).result = .error (.typeError "holds must be in a list") ∧
    (lzc_release st holds).state = st := by
  have hb : buildHoldsDict holds = .error (.typeError "holds must be in a list") := by
    induction holds with
    | nil => simp at h
    | cons p rest ih =>
      obtain ⟨q, hq, hq2⟩ := h
      rcases List.mem_cons.mp hq with rfl | hmem
      · obtain ⟨snap, pv⟩ := q
        cases pv with
        | pylist tags => simp at hq2
        | pyother => simp [buildHoldsDict]
      · obtain ⟨snap, pv⟩ := p
        cases pv with
        | pylist tags =>
          rw [buildHoldsDict, ih ⟨q, hmem, hq2⟩]
          rfl
        | pyother => simp [buildHoldsDict]
  rw [lzc_release, hb]
  exact ⟨rfl, rfl⟩

/-- C9 witness: the theorem at a concrete non-list input. -/
theorem C9_witness :
    (lzc_release emptyState [("p@s1", PyVal.pyother)]).result =
      .error (.typeError "holds must be in a list") ∧
    (lzc_release emptyState [("p@s1", PyVal.pyother)]).state = emptyState :=
  C9_release_nonlist_typeerror emptyState [("p@s1", PyVal.pyother)]
    ⟨("p@s1", PyVal.pyother), by simp, rfl⟩

/-! ## C10 -/

/-- C10: if `flags` contains any name other than `embedded_data` or
`large_blocks`, `lzc_send` raises `UnknownStreamFeature` naming an offending
flag during flag processing, before the boundary call — nothing is written to
the file descriptor. -/
theorem C10_send_unknown_flag (st : EngineState) (snapname : String)
    (fromsnap : Option String) (fd : Nat) (flags : List String)
    (h : ∃ f ∈ flags, sendFlagBit f = none) :
    ∃ g ∈ flags, sendFlagBit g = none ∧
      lzc_send st snapname fromsnap fd flags = (.error (.unknownStreamFeature g), []) := by
  have hc : ∃ g ∈ flags, sendFlagBit g = none ∧
      collectSendFlags flags = .error (.unknownStreamFeature g) := by
    induction flags with
    | nil => simp at h
    | cons f rest ih =>
      cases hf : sendFlagBit f with
      | none => exact ⟨f, by simp, hf, by simp [collectSendFlags, hf]⟩
      | some b =>
        have h' : ∃ g ∈ rest, sendFlagBit g = none := by
          obtain ⟨g, hg, hgn⟩ := h
          rcases List.mem_cons.mp hg with rfl | hmem
          · rw [hf] at hgn; cases hgn
          · exact ⟨g, hmem, hgn⟩
        obtain ⟨g, hg, hgn, hcoll⟩ := ih h'
        exact ⟨g, List.mem_cons_of_mem _ hg, hgn,
          by simp [collectSendFlags, hf, hcoll, Except.map]⟩
  obtain ⟨g, hg, hgn, hcoll⟩ := hc
  exact ⟨g, hg, hgn, by simp [lzc_send, hcoll]⟩

/-- C10 witness: the theorem at a concrete unknown flag. -/
theorem C10_witness :
    ∃ g ∈ ["bogus_feature"], sendFlagBit g = none ∧
      lzc_send emptyState "p@s1" none 7 ["bogus_feature"] =
        (.error (.unknownStreamFeature g), []) :=
  C10_send_unknown_flag emptyState "p@s1" none 7 ["bogus_feature"]
    ⟨"bogus_feature", by simp, by decide⟩

/-! ## C2 -/

/-- C2: after a boundary call of `lzc_hold` or `lzc_release` whose overall
status is success (status 0, so error translation raises nothing), the
wrapper's `assert` guarantees the error-map invariant: a normal return is
only possible when every error-map entry carries `ENOENT`, and any entry with
a different code raises the internal-consistency fault (a failed assertion)
instead of being silently ignored. -/
theorem C2_success_errmap_enoent (errl : List (String × Nat)) :
    ((∀ keys, lzc_holdPost 0 errl = .ok keys → ∀ p ∈ errl, p.2 = ENOENT) ∧
     ((∃ p ∈ errl, p.2 ≠ ENOENT) → lzc_holdPost 0 errl = .error .assertionError)) ∧
    ((∀ keys, lzc_releasePost 0 errl = .ok keys → ∀ p ∈ errl, p.2 = ENOENT) ∧
     ((∃ p ∈ errl, p.2 ≠ ENOENT) → lzc_releasePost 0 errl = .error .assertionError)) := by
  by_cases hall : errl.all (fun p => p.2 == ENOENT) = true
  · have hev : ∀ p ∈ errl, p.2 = ENOENT := by
      intro p hp
      have := List.all_eq_true.mp hall p hp
      exact beq_iff_eq.mp this
    have hnobad : ¬ ∃ p ∈ errl, p.2 ≠ ENOENT := by
      rintro ⟨p, hp, hne⟩
      exact hne (hev p hp)
    refine ⟨⟨fun _ _ => hev, fun hbad => absurd hbad hnobad⟩,
      ⟨fun _ _ => hev, fun hbad => absurd hbad hnobad⟩⟩
  · have hpost : lzc_holdPost 0 errl = .error .assertionError := by
      simp [lzc_holdPost, xlateHold, hall]
    have hpost2 : lzc_releasePost 0 errl = .error .assertionError := by
      simp [lzc_releasePost, xlateRelease, hall]
    refine ⟨⟨fun keys hk => ?_, fun _ => hpost⟩, ⟨fun keys hk => ?_, fun _ => hpost2⟩⟩
    · rw [hpost] at hk; cases hk
    · rw [hpost2] at hk; cases hk

/-- C2 witness: a success-status error map carrying a non-`ENOENT` code (17)
raises the assertion fault. -/
theorem C2_witness :
    lzc_holdPost 0 [("p@s1", 17)] = .error .assertionError :=
  (C2_success_errmap_enoent [("p@s1", 17)]).1.2 ⟨("p@s1", 17), by simp, by decide⟩

/-! ## C3 -/

/-- C3: the create-style batch calls are all-or-nothing.  When `lzc_snapshot`
(resp. `lzc_bookmark`) returns successfully every requested target exists in
the resulting engine state; when it raises, the raised fault is the
operation's compound fault and the engine state is unchanged — no target in
the batch is left created. -/
theorem C3_create_atomicity (valid : String → Bool) (st : EngineState)
    (snaps : List String) (props : List (String × String))
    (bmarks : List (String × String)) :
    (((lzc_snapshot valid st snaps props).result = .ok () →
        ∀ n ∈ snaps, n ∈ (lzc_snapshot valid st snaps props).state.snapshots) ∧
     (∀ e, (lzc_snapshot valid st snaps props).result = .error e →
        (lzc_snapshot valid st snaps props).state = st ∧
        ∃ r el, e = .snapshotFailure r el)) ∧
    (((lzc_bookmark st bmarks).result = .ok () →
        ∀ p ∈ bmarks, p.1 ∈ (lzc_bookmark st bmarks).state.bookmarks) ∧
     (∀ e, (lzc_bookmark st bmarks).result = .error e →
        (lzc_bookmark st bmarks).state = st ∧
        ∃ r el, e = .bookmarkFailure r el)) := by
  constructor
  · simp only [lzc_snapshot, engineSnapshot, withNvlistOut, xlateSnapshot]
    split
    · constructor
      · intro _ n hn
        simp only
        exact List.mem_append.mpr (Or.inr ((mem_dictKeys n snaps).mpr hn))
      · intro e he
        simp at he
    · split
      · constructor
        · intro hok
          simp [EEXIST] at hok
        · intro e he
          simp only [EEXIST] at he
          refine ⟨rfl, ?_⟩
          simp at he
          exact ⟨17, _, he.symm⟩
      · constructor
        · intro hok
          simp [ENOENT] at hok
        · intro e he
          simp only [ENOENT] at he
          refine ⟨rfl, ?_⟩
          simp at he
          exact ⟨2, _, he.symm⟩
  · simp only [lzc_bookmark, engineBookmark, withNvlistOut, xlateBookmark]
    split
    · constructor
      · intro _ p hp
        simp only
        exact List.mem_append.mpr (Or.inr (List.mem_map_of_mem Prod.fst hp))
      · intro e he
        simp at he
    · constructor
      · intro hok
        simp [ENOENT] at hok
      · intro e he
        simp only [ENOENT] at he
        refine ⟨rfl, ?_⟩
        simp at he
        exact ⟨2, _, he.symm⟩

/-- C3 witness: a concrete successful batch creates its target. -/
theorem C3_witness :
    "p@s1" ∈ (lzc_snapshot (fun _ => true) emptyState ["p@s1"] []).state.snapshots :=
  (C3_create_atomicity (fun _ => true) emptyState ["p@s1"] [] []).1.1 (by decide)
    "p@s1" (by simp)

/-! ## C7 -/

/-- C7: the scoped output buffer decodes into the caller's sink and releases
the native handle on scope exit, whether the body returns or raises; in
particular every wrapper built on it (`lzc_snapshot`, `lzc_destroy_snaps`,
`lzc_bookmark`, `lzc_hold`, `lzc_release`) reports the handle released and
carries the decoded engine error map even when the wrapper raises. -/
theorem C7_scoped_output
    (body : List (String × Nat) → Except Fault Unit × List (String × Nat))
    (valid : String → Bool) (st : EngineState) (snaps : List String)
    (props : List (String × String)) (defer : Bool)
    (bmarks : List (String × String)) (holds : List (String × String))
    (fd : Option Int) (rel : List (String × PyVal)) :
    ((withNvlistOut body).released = true ∧
     (withNvlistOut body).sink = (body []).2 ∧
     (withNvlistOut body).result = (body []).1) ∧
    ((lzc_snapshot valid st snaps props).released = true ∧
     (lzc_snapshot valid st snaps props).errlist =
       (engineSnapshot valid st (dictKeys snaps)).2.1) ∧
    ((lzc_destroy_snaps st snaps defer).released = true ∧
     (lzc_destroy_snaps st snaps defer).errlist =
       (engineDestroySnaps st (dictKeys snaps) defer).2.1) ∧
    ((lzc_bookmark st bmarks).released = true ∧
     (lzc_bookmark st bmarks).errlist = (engineBookmark st bmarks).2.1) ∧
    ((lzc_hold st holds fd).released = true ∧
     (lzc_hold st holds fd).errlist = (engineHold st holds (fd.getD (-1))).2.1) ∧
    (lzc_release st rel).released = true := by
  refine ⟨⟨rfl, rfl, rfl⟩, ⟨rfl, rfl⟩, ⟨rfl, rfl⟩, ⟨rfl, rfl⟩, ⟨rfl, rfl⟩, ?_⟩
  cases hb : buildHoldsDict rel with
  | error e => simp [lzc_release, hb]
  | ok d => simp [lzc_release, hb, withNvlistOut]

/-! ## C5 -/

theorem buildHoldsDict_pylists : ∀ rel : List (String × List String),
    buildHoldsDict (rel.map (fun p => (p.1, PyVal.pylist p.2))) =
      .ok (rel.map (fun p => (p.1, dictKeys p.2)))
  | [] => rfl
  | ⟨snap, tags⟩ :: rest => by
    simp only [List.map_cons, buildHoldsDict, buildHoldsDict_pylists rest, Except.map]

theorem releaseMissesFor_snd (st : EngineState) (p : String × List String) :
    ∀ q ∈ releaseMissesFor st p, q.2 = ENOENT := by
  intro q hq
  simp only [releaseMissesFor] at hq
  split at hq
  · simp only [List.mem_singleton] at hq
    rw [hq]
  · rw [List.mem_map] at hq
    obtain ⟨t, _, rfl⟩ := hq
    rfl

theorem releaseMissesFor_fst (st : EngineState) (p : String × List String) :
    (releaseMissesFor st p).map Prod.fst =
      (if st.snapshots.contains p.1 then
        (p.2.filter (fun t => !st.holds.contains (p.1, t))).map (qualifyTag p.1)
      else [p.1]) := by
  by_cases hc : p.1 ∈ st.snapshots
  · have hb : st.snapshots.contains p.1 = true := List.elem_iff.mpr hc
    simp only [releaseMissesFor]
    rw [hb]
    simp only [Bool.not_true, Bool.false_eq_true, if_false, if_true, List.map_map]
    apply List.map_congr_left
    intro t _
    rfl
  · have hb : st.snapshots.contains p.1 = false := by
      cases hcb : st.snapshots.contains p.1
      · rfl
      · exact absurd (List.elem_iff.mp hcb) hc
    simp only [releaseMissesFor]
    rw [hb]
    simp

theorem lzc_holdPost_enoent (l : List (String × Nat))
    (h : ∀ p ∈ l, p.2 = ENOENT) :
    lzc_holdPost 0 l = .ok (l.map Prod.fst) := by
  have hx : xlateHold 0 l = .ok () := by simp [xlateHold]
  have hall : l.all (fun p => p.2 == ENOENT) = true := by
    rw [List.all_eq_true]
    intro p hp
    simpa using h p hp
  simp only [lzc_holdPost, hx, hall, if_true]

theorem lzc_releasePost_enoent (l : List (String × Nat))
    (h : ∀ p ∈ l, p.2 = ENOENT) :
    lzc_releasePost 0 l = .ok (l.map Prod.fst) := by
  have hx : xlateRelease 0 l = .ok () := by simp [xlateRelease]
  have hall : l.all (fun p => p.2 == ENOENT) = true := by
    rw [List.all_eq_true]
    intro p hp
    simpa using h p hp
  simp only [lzc_releasePost, hx, hall, if_true]

/-- C5: for successful `lzc_hold` and `lzc_release` calls the soft misses are
returned as data — never raised.  `lzc_hold` (when no hold is a hard
failure) returns exactly the names of the snapshots that do not exist;
`lzc_release` returns the missing snapshots together with the missing hold
tags on existing snapshots, the latter qualified as `snap#tag`. -/
theorem C5_soft_misses_returned (st : EngineState)
    (holds : List (String × String)) (fd : Option Int)
    (rel : List (String × List String))
    (hd : ((holds.filter (fun p => st.snapshots.contains p.1)).filter
        (fun p => st.holds.contains p)) = []) :
    (lzc_hold st holds fd).result =
      .ok ((holds.filter (fun p => !st.snapshots.contains p.1)).map Prod.fst) ∧
    (lzc_release st (rel.map (fun p => (p.1, PyVal.pylist p.2)))).result =
      .ok (specSoftMisses st (rel.map (fun p => (p.1, dictKeys p.2)))) := by
  constructor
  · simp only [lzc_hold, engineHold, withNvlistOut]
    rw [hd]
    simp only [List.isEmpty_nil, Bool.not_true, Bool.false_eq_true, if_false]
    rw [lzc_holdPost_enoent]
    · rw [List.map_map]
      apply congrArg
      apply List.map_congr_left
      intro p _
      rfl
    · intro p hp
      rw [List.mem_map] at hp
      obtain ⟨q, _, rfl⟩ := hp
      rfl
  · set d := rel.map (fun p => (p.1, dictKeys p.2)) with hdd
    have hres : (lzc_release st (rel.map (fun p => (p.1, PyVal.pylist p.2)))).result =
        lzc_releasePost 0 ((d.map (releaseMissesFor st)).flatten) := by
      simp only [lzc_release, buildHoldsDict_pylists, engineRelease, withNvlistOut]
    rw [hres, lzc_releasePost_enoent]
    · apply congrArg
      rw [List.map_flatten, List.map_map]
      unfold specSoftMisses
      apply congrArg
      apply List.map_congr_left
      intro p _
      exact releaseMissesFor_fst st p
    · intro q hq
      rw [List.mem_flatten] at hq
      obtain ⟨l, hl, hql⟩ := hq
      rw [List.mem_map] at hl
      obtain ⟨p, _, rfl⟩ := hl
      exact releaseMissesFor_snd st p q hql

/-- C5 witness: against `heldState` (snapshot `p@s1` holding `tag1`), holding
the absent `p@s2` reports it back as data, and releasing `tag1` and a missing
tag on `p@s1` plus anything on the absent `p@s2` reports back the qualified
miss `p@s1#missing-tag` and the missing snapshot `p@s2`. -/
theorem C5_witness :
    (lzc_hold heldState [("p@s2", "t")] none).result =
      .ok (([("p@s2", "t")].filter
        (fun p => !heldState.snapshots.contains p.1)).map Prod.fst) ∧
    (lzc_release heldState
        ([("p@s1", ["tag1", "missing-tag"]), ("p@s2", ["x"])].map
          (fun p => (p.1, PyVal.pylist p.2)))).result =
      .ok (specSoftMisses heldState
        ([("p@s1", ["tag1", "missing-tag"]), ("p@s2", ["x"])].map
          (fun p => (p.1, dictKeys p.2)))) :=
  C5_soft_misses_returned heldState [("p@s2", "t")] none
    [("p@s1", ["tag1", "missing-tag"]), ("p@s2", ["x"])] (by decide)

/-! ## C1: codec lemmas -/

theorem validWidth_eq {w : Nat} (h : validWidth w = true) :
    w = 1 ∨ w = 2 ∨ w = 4 ∨ w = 8 := by
  simp only [validWidth, Bool.or_eq_true, beq_iff_eq] at h
  tauto

theorem natToBytesLE_length : ∀ (w n : Nat), (natToBytesLE w n).length = w
  | 0, _ => rfl
  | w + 1, n => by
    simp [natToBytesLE, natToBytesLE_length w]

theorem takeBytes_append : ∀ (xs rest : List Nat),
    takeBytes xs.length (xs ++ rest) = some (xs, rest)
  | [], rest => rfl
  | b :: xs, rest => by
    simp [takeBytes, takeBytes_append xs rest]

theorem bytesToNatLE_natToBytesLE : ∀ (w n : Nat),
    bytesToNatLE (natToBytesLE w n) = n % 256 ^ w
  | 0, n => by simp [natToBytesLE, bytesToNatLE, Nat.mod_one]
  | w + 1, n => by
    rw [natToBytesLE, bytesToNatLE, bytesToNatLE_natToBytesLE w (n / 256),
      pow_succ', Nat.mod_mul]
    omega

theorem decKind_encKind (k : ElemKind) (hk : kindWf k = true) (rest : List Nat) :
    decKind (encKind k ++ rest) = some (k, rest) := by
  cases k with
  | kflag => rfl
  | kbool => rfl
  | kint sg w =>
    have hw : w % 256 = w := by
      rcases validWidth_eq hk with rfl | rfl | rfl | rfl <;> rfl
    cases sg <;> simp [encKind, decKind, hw]
  | kstr => rfl
  | klist => rfl

theorem decBytes_encBytes (s : List Nat) (h : s.length < 2 ^ 32)
    (rest : List Nat) : decBytes (encBytes s ++ rest) = some (s, rest) := by
  have h4 : (natToBytesLE 4 s.length).length = 4 := natToBytesLE_length 4 _
  have ht : takeBytes 4 (natToBytesLE 4 s.length ++ (s ++ rest)) =
      some (natToBytesLE 4 s.length, s ++ rest) := by
    have hta := takeBytes_append (natToBytesLE 4 s.length) (s ++ rest)
    rwa [h4] at hta
  have hlt : s.length % 256 ^ 4 = s.length := by
    apply Nat.mod_eq_of_lt
    calc s.length < 2 ^ 32 := h
    _ = 256 ^ 4 := by norm_num
  rw [encBytes, List.append_assoc, decBytes, ht]
  show takeBytes (bytesToNatLE (natToBytesLE 4 s.length)) (s ++ rest) = some (s, rest)
  rw [bytesToNatLE_natToBytesLE, hlt]
  exact takeBytes_append s rest

theorem toNat_emod_lt (v : Int) (w : Nat) :
    ((v % ((256 : Int) ^ w)).toNat) < 256 ^ w := by
  have hm : (0 : Int) < (256 : Int) ^ w := by positivity
  have h2 : v % ((256 : Int) ^ w) < (256 : Int) ^ w := Int.emod_lt_of_pos v hm
  have h3 : ((256 : Int) ^ w) = ((256 ^ w : Nat) : Int) := by push_cast; ring
  omega

theorem decInt_roundtrip (sg : Bool) (w : Nat) (v : Int)
    (hw : validWidth w = true) (hr : intInRange sg w v = true) :
    decInt sg w ((v % ((256 : Int) ^ w)).toNat) = v := by
  cases sg with
  | false =>
    simp only [intInRange, if_false, Bool.and_eq_true, decide_eq_true_eq,
      Bool.false_eq_true] at hr
    have hmod : v % ((256 : Int) ^ w) = v := Int.emod_eq_of_lt hr.1 hr.2
    simp only [decInt, Bool.false_and, Bool.false_eq_true, if_false, hmod]
    omega
  | true =>
    simp only [intInRange, if_true, Bool.and_eq_true, decide_eq_true_eq] at hr
    rcases validWidth_eq hw with rfl | rfl | rfl | rfl <;>
      (simp only [decInt, Bool.true_and, decide_eq_true_eq];
       norm_num at hr ⊢;
       split <;> omega)

theorem sizeV_pos (v : NvValue) : 1 ≤ sizeV v := by
  cases v <;> simp only [sizeV] <;> omega

theorem sizeP_pos (l : NvPairs) : 1 ≤ sizeP l := by
  cases l <;> simp only [sizeP] <;> omega

theorem sizeVs_pos (vs : NvValues) : 1 ≤ sizeVs vs := by
  cases vs with
  | vnil => simp [sizeVs]
  | vcons v rest =>
    have := sizeV_pos v
    simp only [sizeVs]
    omega

theorem encKind_pos (k : ElemKind) : 1 ≤ (encKind k).length := by
  cases k <;> simp [encKind]

mutual

theorem encV_size : ∀ (v : NvValue) (b : List Nat),
    encV v = some b → sizeV v ≤ b.length
  | .flagv, b, h => by
    simp only [encV, Option.some.injEq] at h
    subst h
    simp [sizeV]
  | .boolv bb, b, h => by
    simp only [encV, Option.some.injEq] at h
    subst h
    simp [sizeV]
  | .intv sg w v, b, h => by
    simp only [encV, Option.some.injEq] at h
    subst h
    simp [sizeV]
  | .strv s, b, h => by
    simp only [encV, Option.some.injEq] at h
    subst h
    simp [sizeV]
  | .listv l, b, h => by
    simp only [encV] at h
    cases hp : encP l with
    | none => rw [hp] at h; cases h
    | some bl =>
      rw [hp] at h
      simp only [Option.map, Option.some.injEq] at h
      subst h
      have := encP_size l bl hp
      simp only [sizeV, List.length_cons]
      omega
  | .arrv k vs, b, h => by
    simp only [encV] at h
    by_cases hh : homog k vs = true
    · rw [if_pos hh] at h
      cases hvs : encVs vs with
      | none => rw [hvs] at h; cases h
      | some bs =>
        rw [hvs] at h
        simp only [Option.map, Option.some.injEq] at h
        subst h
        have := encVs_size vs bs hvs
        have hk := encKind_pos k
        have h4 : (natToBytesLE 4 (lenVs vs)).length = 4 := natToBytesLE_length 4 _
        simp only [sizeV, List.length_cons, List.length_append]
        omega
    · rw [if_neg hh] at h
      cases h

theorem encP_size : ∀ (l : NvPairs) (b : List Nat),
    encP l = some b → sizeP l ≤ b.length
  | .pnil, b, h => by
    simp only [encP, Option.some.injEq] at h
    subst h
    simp [sizeP]
  | .pcons key v rest, b, h => by
    simp only [encP] at h
    cases hv : encV v with
    | none => rw [hv] at h; cases h
    | some bv =>
      cases hr : encP rest with
      | none => rw [hv, hr] at h; cases h
      | some br =>
        rw [hv, hr] at h
        simp only [Option.some.injEq] at h
        subst h
        have h1 := encV_size v bv hv
        have h2 := encP_size rest br hr
        simp only [sizeP, List.length_cons, List.length_append]
        omega

theorem encVs_size : ∀ (vs : NvValues) (b : List Nat),
    encVs vs = some b → sizeVs vs ≤ b.length + 1
  | .vnil, b, h => by
    simp only [encVs, Option.some.injEq] at h
    subst h
    simp [sizeVs]
  | .vcons v rest, b, h => by
    simp only [encVs] at h
    cases hv : encV v with
    | none => rw [hv] at h; cases h
    | some bv =>
      cases hr : encVs rest with
      | none => rw [hv, hr] at h; cases h
      | some br =>
        rw [hv, hr] at h
        simp only [Option.some.injEq] at h
        subst h
        have h1 := encV_size v bv hv
        have h2 := encVs_size rest br hr
        have h3 := sizeV_pos v
        simp only [sizeVs, List.length_append]
        omega

end

mutual

theorem encV_total : ∀ v : NvValue, wfV v = true → ∃ b, encV v = some b
  | .flagv, _ => ⟨[1], rfl⟩
  | .boolv b, _ => ⟨[2, if b then 1 else 0], rfl⟩
  | .intv sg w v, _ =>
    ⟨[3, if sg then 1 else 0, w % 256] ++ encIntPayload w v, rfl⟩
  | .strv s, _ => ⟨4 :: encBytes s, rfl⟩
  | .listv l, h => by
    simp only [wfV] at h
    obtain ⟨bl, hbl⟩ := encP_total l h
    exact ⟨5 :: bl, by simp only [encV, hbl, Option.map]⟩
  | .arrv k vs, h => by
    simp only [wfV, Bool.and_eq_true] at h
    obtain ⟨⟨⟨hk, hlen⟩, hhom⟩, hwf⟩ := h
    obtain ⟨bs, hbs⟩ := encVs_total vs hwf
    refine ⟨6 :: (encKind k ++ natToBytesLE 4 (lenVs vs) ++ bs), ?_⟩
    simp only [encV, hhom, if_true, hbs, Option.map]

theorem encP_total : ∀ l : NvPairs, wfP l = true → ∃ b, encP l = some b
  | .pnil, _ => ⟨[0], rfl⟩
  | .pcons key v rest, h => by
    simp only [wfP, Bool.and_eq_true] at h
    obtain ⟨⟨⟨⟨hkey, hbytes⟩, hnot⟩, hv⟩, hrest⟩ := h
    obtain ⟨bv, hbv⟩ := encV_total v hv
    obtain ⟨br, hbr⟩ := encP_total rest hrest
    exact ⟨1 :: (encBytes key ++ bv ++ br), by simp only [encP, hbv, hbr]⟩

theorem encVs_total : ∀ vs : NvValues, wfVs vs = true → ∃ b, encVs vs = some b
  | .vnil, _ => ⟨[], rfl⟩
  | .vcons v rest, h => by
    simp only [wfVs, Bool.and_eq_true] at h
    obtain ⟨bv, hbv⟩ := encV_total v h.1
    obtain ⟨br, hbr⟩ := encVs_total rest h.2
    exact ⟨bv ++ br, by simp only [encVs, hbv, hbr]⟩

end

mutual

theorem decV_encV : ∀ (v : NvValue) (bv rest : List Nat) (f : Nat),
    wfV v = true → encV v = some bv → sizeV v ≤ f →
    decV f (bv ++ rest) = some (v, rest)
  | v, _, _, 0, _, _, hf => absurd hf (by have := sizeV_pos v; omega)
  | .flagv, bv, rest, f + 1, _, hb, _ => by
    simp only [encV, Option.some.injEq] at hb
    subst hb
    simp [decV]
  | .boolv b, bv, rest, f + 1, _, hb, _ => by
    simp only [encV, Option.some.injEq] at hb
    subst hb
    cases b <;> simp [decV]
  | .intv sg w v, bv, rest, f + 1, hw, hb, _ => by
    simp only [wfV, Bool.and_eq_true] at hw
    obtain ⟨hvw, hvr⟩ := hw
    simp only [encV, Option.some.injEq] at hb
    subst hb
    have hwm : w % 256 = w := by
      rcases validWidth_eq hvw with rfl | rfl | rfl | rfl <;> rfl
    have htk : takeBytes w (encIntPayload w v ++ rest) =
        some (encIntPayload w v, rest) := by
      have hta := takeBytes_append (encIntPayload w v) rest
      rwa [show (encIntPayload w v).length = w from natToBytesLE_length w _] at hta
    have hbn : bytesToNatLE (encIntPayload w v) = (v % ((256 : Int) ^ w)).toNat := by
      rw [encIntPayload, bytesToNatLE_natToBytesLE]
      exact Nat.mod_eq_of_lt (toNat_emod_lt v w)
    have hd := decInt_roundtrip sg w v hvw hvr
    cases sg with
    | false =>
      rw [hwm]
      simp [decV, htk, hbn, hd]
    | true =>
      rw [hwm]
      simp [decV, htk, hbn, hd]
  | .strv s, bv, rest, f + 1, hw, hb, _ => by
    simp only [wfV, Bool.and_eq_true, decide_eq_true_eq] at hw
    simp only [encV, Option.some.injEq] at hb
    subst hb
    simp only [List.cons_append, decV]
    rw [decBytes_encBytes s hw.1 rest]
    simp only [Option.map]
  | .listv l, bv, rest, f + 1, hw, hb, hf => by
    simp only [wfV] at hw
    simp only [encV] at hb
    cases hp : encP l with
    | none => rw [hp] at hb; cases hb
    | some bl =>
      rw [hp] at hb
      simp only [Option.map, Option.some.injEq] at hb
      subst hb
      have hfl : sizeP l ≤ f := by
        simp only [sizeV] at hf
        omega
      simp only [List.cons_append, decV]
      rw [decP_encP l bl rest f hw hp hfl]
      simp only [Option.map]
  | .arrv k vs, bv, rest, f + 1, hw, hb, hf => by
    simp only [wfV, Bool.and_eq_true, decide_eq_true_eq] at hw
    obtain ⟨⟨⟨hk, hlen⟩, hhom⟩, hwf⟩ := hw
    simp only [encV, hhom, if_true] at hb
    cases hvs : encVs vs with
    | none => rw [hvs] at hb; cases hb
    | some bs =>
      rw [hvs] at hb
      simp only [Option.map, Option.some.injEq] at hb
      subst hb
      have hfl : sizeVs vs ≤ f := by
        simp only [sizeV] at hf
        omega
      simp only [List.cons_append, List.append_assoc, decV]
      rw [decKind_encKind k hk]
      have ht4 : takeBytes 4 (natToBytesLE 4 (lenVs vs) ++ (bs ++ rest)) =
          some (natToBytesLE 4 (lenVs vs), bs ++ rest) := by
        have hta := takeBytes_append (natToBytesLE 4 (lenVs vs)) (bs ++ rest)
        rwa [natToBytesLE_length] at hta
      simp only [Option.bind, ht4]
      have hcnt : bytesToNatLE (natToBytesLE 4 (lenVs vs)) = lenVs vs := by
        rw [bytesToNatLE_natToBytesLE]
        apply Nat.mod_eq_of_lt
        calc lenVs vs < 2 ^ 32 := hlen
        _ = 256 ^ 4 := by norm_num
      rw [hcnt, decVs_encVs vs bs rest f hwf hvs hfl]
      simp only [Option.map]

theorem decP_encP : ∀ (l : NvPairs) (bl rest : List Nat) (f : Nat),
    wfP l = true → encP l = some bl → sizeP l ≤ f →
    decP f (bl ++ rest) = some (l, rest)
  | l, _, _, 0, _, _, hf => absurd hf (by have := sizeP_pos l; omega)
  | .pnil, bl, rest, f + 1, _, hb, _ => by
    simp only [encP, Option.some.injEq] at hb
    subst hb
    simp [decP]
  | .pcons key v vrest, bl, rest, f + 1, hw, hb, hf => by
    simp only [wfP, Bool.and_eq_true, decide_eq_true_eq] at hw
    obtain ⟨⟨⟨⟨hkey, hbytes⟩, hnot⟩, hv⟩, hrest⟩ := hw
    simp only [encP] at hb
    cases hbv : encV v with
    | none => rw [hbv] at hb; cases hb
    | some bv =>
      cases hbr : encP vrest with
      | none => rw [hbv, hbr] at hb; cases hb
      | some br =>
        rw [hbv, hbr] at hb
        simp only [Option.some.injEq] at hb
        subst hb
        have hf1 : sizeV v ≤ f := by
          simp only [sizeP] at hf
          have := sizeP_pos vrest
          omega
        have hf2 : sizeP vrest ≤ f := by
          simp only [sizeP] at hf
          have := sizeV_pos v
          omega
        simp only [List.cons_append, List.append_assoc, decP]
        rw [decBytes_encBytes key hkey]
        simp only [Option.bind]
        rw [decV_encV v bv (br ++ rest) f hv hbv hf1]
        simp only [Option.bind]
        rw [decP_encP vrest br rest f hrest hbr hf2]
        simp only [Option.map]

theorem decVs_encVs : ∀ (vs : NvValues) (bs rest : List Nat) (f : Nat),
    wfVs vs = true → encVs vs = some bs → sizeVs vs ≤ f →
    decVs f (lenVs vs) (bs ++ rest) = some (vs, rest)
  | vs, _, _, 0, _, _, hf => absurd hf (by have := sizeVs_pos vs; omega)
  | .vnil, bs, rest, f + 1, _, hb, _ => by
    simp only [encVs, Option.some.injEq] at hb
    subst hb
    simp [decVs, lenVs]
  | .vcons v vrest, bs, rest, f + 1, hw, hb, hf => by
    simp only [wfVs, Bool.and_eq_true] at hw
    simp only [encVs] at hb
    cases hbv : encV v with
    | none => rw [hbv] at hb; cases hb
    | some bv =>
      cases hbr : encVs vrest with
      | none => rw [hbv, hbr] at hb; cases hb
      | some br =>
        rw [hbv, hbr] at hb
        simp only [Option.some.injEq] at hb
        subst hb
        have hf1 : sizeV v ≤ f := by
          simp only [sizeVs] at hf
          have := sizeVs_pos vrest
          omega
        have hf2 : sizeVs vrest ≤ f := by
          simp only [sizeVs] at hf
          have := sizeV_pos v
          omega
        simp only [lenVs, List.append_assoc, decVs]
        rw [decV_encV v bv (br ++ rest) f hw.1 hbv hf1]
        simp only [Option.bind]
        rw [decVs_encVs vrest br rest f hw.2 hbr hf2]
        simp only [Option.map]

end

/-- C1: round-trip law of the List codec.  Every value tree constructible
under the grammar of §3 (byte-string keys, flags, booleans, fixed-width
integers, byte strings, nested Lists, homogeneous sequences) encodes
successfully, and decoding the encoding yields a structurally equal tree —
same keys, same order, same scalar values and types. -/
theorem C1_roundtrip (v : NvValue) (h : wfV v = true) :
    ∃ buf, encV v = some buf ∧ lzcDecode buf = some v := by
  obtain ⟨buf, hbuf⟩ := encV_total v h
  refine ⟨buf, hbuf, ?_⟩
  have hs : sizeV v ≤ buf.length + 1 := by
    have := encV_size v buf hbuf
    omega
  have hrt := decV_encV v buf [] (buf.length + 1) h hbuf hs
  rw [List.append_nil] at hrt
  rw [lzcDecode, hrt]
  rfl

/-- C1 witness: the scenario-1 tree `{"a": 1u32, "b": ["x", "y", "z"]}`
is well-formed and round-trips. -/
theorem C1_witness :
    wfV exTree = true ∧
    ∃ buf, encV exTree = some buf ∧ lzcDecode buf = some exTree :=
  ⟨by decide, C1_roundtrip exTree (by decide)⟩

end PyZfs
